import Mathlib

/-! Shallow embedding of the Huntarr-Lidarr polling agent (src/main.py,
src/missing/album.py, src/upgrade/album.py).

Modelling conventions:
- Remote entities (artists, albums, cutoff records) are records carrying the
  fields the code reads; dictionary lookups with defaults become plain fields
  (a missing "monitored" key is the value false, missing statistics counts are 0,
  matching dict.get defaults in the source).
- A remote command response is an Option (List String): none models a failed
  request (lidarr_request returns None), some keys models the key set of the
  returned JSON object.  A response is accepted exactly when it carries the
  "id" key, which is the check the source performs; note that a Python empty
  dict is falsy and has no "id" key, so truthiness checks collapse into the
  key test.
- Remote I/O is an explicit World value.  Per-candidate command responses are
  indexed by the candidate index selected in the pass (each index is attempted
  at most once per pass, so this loses no generality).
- random.randint(0, n-1) draws are modelled by an explicit list of naturals,
  taken modulo n; the retry-until-unused inner loop scans that list.  An
  exhausted draw list models the (probability-zero) divergence of the retry
  loop and makes the whole pass return none, as does fuel exhaustion of the
  outer loop (which provably cannot occur at the fuel the passes supply).
- Sleeps and log lines are not modelled; the sequence of issued remote
  commands is recorded in an explicit trace.
- datetime instants are integers (seconds since an epoch); timedelta(hours=h)
  is 3600 * h.  isoformat / fromisoformat become an injective rendering of the
  instant to a string and the matching parser, which rejects ill-formed
  strings such as "not-a-date" just as datetime.fromisoformat does.
-/

/-- Configuration drawn from the environment at startup (src/main.py lines
20-62).  The item budgets are Python ints and may be negative. -/
structure Config where
  HUNT_MISSING_ITEMS : ℤ
  HUNT_UPGRADE_ALBUMS : ℤ
  RANDOM_SELECTION : Bool
  MONITORED_ONLY : Bool
deriving DecidableEq

/-- An artist as read from the remote snapshot: the fields
process_artists_missing inspects (id, monitored flag, statistics counts). -/
structure Artist where
  id : ℤ
  monitored : Bool
  trackCount : ℤ
  trackFileCount : ℤ
deriving DecidableEq

/-- An album as returned by get_albums_for_artist: the fields the album pass
inspects. -/
structure Album where
  id : ℤ
  monitored : Bool
  trackCount : ℤ
  trackFileCount : ℤ
deriving DecidableEq

/-- The transient candidate record built by the album gathering loop
(src/main.py lines 410-416); artist and album titles are only logged and are
omitted. -/
structure AlbumCand where
  artistId : ℤ
  albumId : ℤ
  missing : ℤ
deriving DecidableEq

/-- A record of the wanted/cutoff endpoint as read by process_album_upgrades:
ids may be absent (dict.get returning None), the monitored flag defaults to
false. -/
structure CutoffRecord where
  id : Option ℤ
  artistId : Option ℤ
  monitored : Bool
deriving DecidableEq

/-- An upgrade candidate (src/upgrade/album.py lines 125-130). -/
structure UpgCand where
  artistId : ℤ
  albumId : ℤ
deriving DecidableEq

/-- The remote commands the passes can issue, in the order they are issued;
this is the observable effect surface of a pass. -/
inductive Cmd where
  | getArtists
  | getAlbums (artistId : ℤ)
  | getCutoff
  | refreshArtist (artistId : ℤ)
  | missingAlbumSearch (artistId : ℤ)
  | albumSearchByArtist (artistId : ℤ)
  | albumSearch (albumId : ℤ)
deriving DecidableEq

/-- The remote service, fixed for one pass.  Command responses are indexed by
the candidate index they answer (each candidate index is attempted at most
once in a pass). -/
structure World where
  artists : Option (List Artist)
  albumsOf : ℤ → Option (List Album)
  cutoffRecords : List CutoffRecord
  refreshResp : ℕ → Option (List String)
  searchResp : ℕ → Option (List String)
  fallbackResp : ℕ → Option (List String)

/-- Command acceptance (src/main.py lines 327, 337, 348): the response exists
and its body has an "id" key.  An absent response or a body without "id"
(including the falsy empty dict) is a failure. -/
def respAccepted : Option (List String) → Bool
  | none => false
  | some keys => keys.contains "id"

/-- The incomplete-artist filter of process_artists_missing (src/main.py lines
263-278): monitored (when MONITORED_ONLY), trackCount > trackFileCount, and
not already processed. -/
def incomplete_artists (MONITORED_ONLY : Bool) (artists : List Artist)
    (processed_artists : List ℤ) : List Artist :=
  if MONITORED_ONLY then
    artists.filter (fun a =>
      a.monitored && decide (a.trackCount > a.trackFileCount)
        && !(processed_artists.contains a.id))
  else
    artists.filter (fun a =>
      decide (a.trackCount > a.trackFileCount)
        && !(processed_artists.contains a.id))

/-- Outcome of the index-selection step: pick an index (returning the unused
draws), stop the outer loop (empty sequential candidate list), or diverge
(the random retry loop never finds an unused index). -/
inductive SelOutcome where
  | diverge
  | stop
  | pick (idx : ℕ) (rest : List ℕ)
deriving DecidableEq

/-- The retry-until-unused random selection (src/main.py lines 305-308): draw
indices until one is not in used; each draw consumes one list element, taken
mod n to land in randint's range. -/
def pickRandom (n : ℕ) : List ℕ → List ℕ → Option (ℕ × List ℕ)
  | [], _ => none
  | r :: rest, used =>
    if used.contains (r % n) then pickRandom n rest used else some (r % n, rest)

/-- Sequential selection (src/main.py lines 310-313): the first index of
range n not yet used, none when idx_candidates is empty. -/
def pickSequential (n : ℕ) (used : List ℕ) : Option ℕ :=
  ((List.range n).filter (fun i => !(used.contains i))).head?

/-- The selection step of every pass loop (src/main.py lines 303-313): random
when RANDOM_SELECTION and more than one candidate, else sequential. -/
def selectIdx (RANDOM_SELECTION : Bool) (n : ℕ) (draws used : List ℕ) :
    SelOutcome :=
  if RANDOM_SELECTION && decide (1 < n) then
    match pickRandom n draws used with
    | none => SelOutcome.diverge
    | some (i, rest) => SelOutcome.pick i rest
  else
    match pickSequential n used with
    | none => SelOutcome.stop
    | some i => SelOutcome.pick i draws

/-- The mutable state of a missing-pass loop: processed_count, used_indices
(as the list of selections in order; the Python set never receives a
duplicate), newly_processed, the unconsumed random draws, and the trace of
remote commands issued so far. -/
structure LoopSt where
  processed_count : ℕ
  used_indices : List ℕ
  newly_processed : List ℤ
  draws : List ℕ
  trace : List Cmd
deriving DecidableEq

/-- The candidate-processing loop of process_artists_missing (src/main.py
lines 295-356).  One fuel unit per iteration; each iteration consumes a fresh
index, so fuel cands.length + 1 never runs out.  Refresh failure skips the
candidate without counting it; otherwise MissingAlbumSearch is issued, with
an AlbumSearch-by-artist fallback, and the artist id is recorded exactly when
one of the two is accepted; processed_count then advances either way. -/
def artistLoop (cfg : Config) (w : World) (cands : List Artist) :
    ℕ → LoopSt → Option LoopSt
  | 0, _ => none
  | fuel + 1, st =>
    if (st.processed_count : ℤ) ≥ cfg.HUNT_MISSING_ITEMS then some st
    else if st.used_indices.length ≥ cands.length then some st
    else
      match selectIdx cfg.RANDOM_SELECTION cands.length st.draws st.used_indices with
      | SelOutcome.diverge => none
      | SelOutcome.stop => some st
      | SelOutcome.pick idx rest =>
        match cands[idx]? with
        | none => none
        | some artist =>
          let used' := st.used_indices ++ [idx]
          let tr1 := st.trace ++ [Cmd.refreshArtist artist.id]
          if respAccepted (w.refreshResp idx) then
            let tr2 := tr1 ++ [Cmd.missingAlbumSearch artist.id]
            if respAccepted (w.searchResp idx) then
              artistLoop cfg w cands fuel
                ⟨st.processed_count + 1, used', st.newly_processed ++ [artist.id], rest, tr2⟩
            else
              let tr3 := tr2 ++ [Cmd.albumSearchByArtist artist.id]
              if respAccepted (w.fallbackResp idx) then
                artistLoop cfg w cands fuel
                  ⟨st.processed_count + 1, used', st.newly_processed ++ [artist.id], rest, tr3⟩
              else
                artistLoop cfg w cands fuel
                  ⟨st.processed_count + 1, used', st.newly_processed, rest, tr3⟩
          else
            artistLoop cfg w cands fuel
              ⟨st.processed_count, used', st.newly_processed, rest, tr1⟩

/-- process_artists_missing (src/main.py lines 244-359) as a pure function of
the configuration, the remote world and the random draws: returns the updated
processed list and the trace of issued remote commands, or none on
divergence. -/
def process_artists_missing (cfg : Config) (w : World) (draws : List ℕ)
    (processed_artists : List ℤ) : Option (List ℤ × List Cmd) :=
  if cfg.HUNT_MISSING_ITEMS ≤ 0 then some (processed_artists, [])
  else
    match w.artists with
    | none => some (processed_artists, [Cmd.getArtists])
    | some artists =>
      if artists.isEmpty then some (processed_artists, [Cmd.getArtists])
      else
        let cands := incomplete_artists cfg.MONITORED_ONLY artists processed_artists
        if cands.isEmpty then some (processed_artists, [Cmd.getArtists])
        else
          match artistLoop cfg w cands (cands.length + 1)
              ⟨0, [], [], draws, [Cmd.getArtists]⟩ with
          | none => none
          | some st => some (processed_artists ++ st.newly_processed, st.trace)


/-- The candidate-gathering loop of the inline process_albums_missing
(src/main.py lines 381-416): per artist, skip unmonitored artists when
MONITORED_ONLY, fetch the artist's albums (a failed fetch yields the empty
list, as does `or []`), and keep unprocessed, monitored-as-required albums
with trackCount > trackFileCount.  Returns the candidates and the getAlbums
commands issued. -/
def gather_incomplete_albums (MONITORED_ONLY : Bool) (w : World)
    (processed_albums : List ℤ) : List Artist → List AlbumCand × List Cmd
  | [] => ([], [])
  | artist :: rest =>
    if MONITORED_ONLY && !artist.monitored then
      gather_incomplete_albums MONITORED_ONLY w processed_albums rest
    else
      let albums := (w.albumsOf artist.id).getD []
      let here := albums.filterMap (fun alb =>
        if processed_albums.contains alb.id then none
        else if MONITORED_ONLY && !alb.monitored then none
        else if alb.trackCount > alb.trackFileCount then
          some ⟨artist.id, alb.id, alb.trackCount - alb.trackFileCount⟩
        else none)
      let restPair := gather_incomplete_albums MONITORED_ONLY w processed_albums rest
      (here ++ restPair.1, Cmd.getAlbums artist.id :: restPair.2)

/-- The candidate-processing loop of the inline process_albums_missing
(src/main.py lines 433-483).  Refresh failure skips the candidate without
counting it; after an accepted refresh, AlbumSearch is issued and the album
id is recorded exactly when it is accepted; processed_count then advances
either way. -/
def albumLoop (cfg : Config) (w : World) (cands : List AlbumCand) :
    ℕ → LoopSt → Option LoopSt
  | 0, _ => none
  | fuel + 1, st =>
    if (st.processed_count : ℤ) ≥ cfg.HUNT_MISSING_ITEMS then some st
    else if st.used_indices.length ≥ cands.length then some st
    else
      match selectIdx cfg.RANDOM_SELECTION cands.length st.draws st.used_indices with
      | SelOutcome.diverge => none
      | SelOutcome.stop => some st
      | SelOutcome.pick idx rest =>
        match cands[idx]? with
        | none => none
        | some album_obj =>
          let used' := st.used_indices ++ [idx]
          let tr1 := st.trace ++ [Cmd.refreshArtist album_obj.artistId]
          if respAccepted (w.refreshResp idx) then
            let tr2 := tr1 ++ [Cmd.albumSearch album_obj.albumId]
            if respAccepted (w.searchResp idx) then
              albumLoop cfg w cands fuel
                ⟨st.processed_count + 1, used', st.newly_processed ++ [album_obj.albumId], rest, tr2⟩
            else
              albumLoop cfg w cands fuel
                ⟨st.processed_count + 1, used', st.newly_processed, rest, tr2⟩
          else
            albumLoop cfg w cands fuel
              ⟨st.processed_count, used', st.newly_processed, rest, tr1⟩

/-- The inline process_albums_missing of the main entry point (src/main.py
lines 364-486). -/
def process_albums_missing (cfg : Config) (w : World) (draws : List ℕ)
    (processed_albums : List ℤ) : Option (List ℤ × List Cmd) :=
  if cfg.HUNT_MISSING_ITEMS ≤ 0 then some (processed_albums, [])
  else
    match w.artists with
    | none => some (processed_albums, [Cmd.getArtists])
    | some artists =>
      if artists.isEmpty then some (processed_albums, [Cmd.getArtists])
      else
        let gp := gather_incomplete_albums cfg.MONITORED_ONLY w processed_albums artists
        if gp.1.isEmpty then some (processed_albums, Cmd.getArtists :: gp.2)
        else
          match albumLoop cfg w gp.1 (gp.1.length + 1)
              ⟨0, [], [], draws, Cmd.getArtists :: gp.2⟩ with
          | none => none
          | some st => some (processed_albums ++ st.newly_processed, st.trace)

/-- The candidate-gathering loop of the modularized process_albums_missing
(src/missing/album.py lines 43-76); translated separately from that file, it
performs the same computation as the inline copy. -/
def mod_gather_incomplete_albums (MONITORED_ONLY : Bool) (w : World)
    (processed_albums : List ℤ) : List Artist → List AlbumCand × List Cmd
  | [] => ([], [])
  | artist :: rest =>
    if MONITORED_ONLY && !artist.monitored then
      mod_gather_incomplete_albums MONITORED_ONLY w processed_albums rest
    else
      let albums := (w.albumsOf artist.id).getD []
      let here := albums.filterMap (fun alb =>
        if processed_albums.contains alb.id then none
        else if MONITORED_ONLY && !alb.monitored then none
        else if alb.trackCount > alb.trackFileCount then
          some ⟨artist.id, alb.id, alb.trackCount - alb.trackFileCount⟩
        else none)
      let restPair := mod_gather_incomplete_albums MONITORED_ONLY w processed_albums rest
      (here ++ restPair.1, Cmd.getAlbums artist.id :: restPair.2)

/-- The candidate-processing loop of the modularized process_albums_missing
(src/missing/album.py lines 96-148); it differs from the inline copy only in
log lines and in a SLEEP_DURATION sleep after each processed album, neither
of which is part of the model. -/
def mod_albumLoop (cfg : Config) (w : World) (cands : List AlbumCand) :
    ℕ → LoopSt → Option LoopSt
  | 0, _ => none
  | fuel + 1, st =>
    if (st.processed_count : ℤ) ≥ cfg.HUNT_MISSING_ITEMS then some st
    else if st.used_indices.length ≥ cands.length then some st
    else
      match selectIdx cfg.RANDOM_SELECTION cands.length st.draws st.used_indices with
      | SelOutcome.diverge => none
      | SelOutcome.stop => some st
      | SelOutcome.pick idx rest =>
        match cands[idx]? with
        | none => none
        | some album_obj =>
          let used' := st.used_indices ++ [idx]
          let tr1 := st.trace ++ [Cmd.refreshArtist album_obj.artistId]
          if respAccepted (w.refreshResp idx) then
            let tr2 := tr1 ++ [Cmd.albumSearch album_obj.albumId]
            if respAccepted (w.searchResp idx) then
              mod_albumLoop cfg w cands fuel
                ⟨st.processed_count + 1, used', st.newly_processed ++ [album_obj.albumId], rest, tr2⟩
            else
              mod_albumLoop cfg w cands fuel
                ⟨st.processed_count + 1, used', st.newly_processed, rest, tr2⟩
          else
            mod_albumLoop cfg w cands fuel
              ⟨st.processed_count, used', st.newly_processed, rest, tr1⟩

/-- The modularized process_albums_missing (src/missing/album.py lines
14-150); its extra sleeps on the no-artist-data and no-candidate paths do not
change the returned value or the issued commands. -/
def mod_process_albums_missing (cfg : Config) (w : World) (draws : List ℕ)
    (processed_albums : List ℤ) : Option (List ℤ × List Cmd) :=
  if cfg.HUNT_MISSING_ITEMS ≤ 0 then some (processed_albums, [])
  else
    match w.artists with
    | none => some (processed_albums, [Cmd.getArtists])
    | some artists =>
      if artists.isEmpty then some (processed_albums, [Cmd.getArtists])
      else
        let gp := mod_gather_incomplete_albums cfg.MONITORED_ONLY w processed_albums artists
        if gp.1.isEmpty then some (processed_albums, Cmd.getArtists :: gp.2)
        else
          match mod_albumLoop cfg w gp.1 (gp.1.length + 1)
              ⟨0, [], [], draws, Cmd.getArtists :: gp.2⟩ with
          | none => none
          | some st => some (processed_albums ++ st.newly_processed, st.trace)

/-- Python truthiness of an optional integer id (src/upgrade/album.py line
116: `if not album_id or not artist_id`): absent or zero is falsy. -/
def truthyInt : Option ℤ → Bool
  | none => false
  | some v => !(v == 0)

/-- The upgrade-candidate preparation of process_album_upgrades
(src/upgrade/album.py lines 105-130): skip records with falsy ids, skip
unmonitored albums when MONITORED_ONLY. -/
def upgrade_candidates_of (MONITORED_ONLY : Bool)
    (records : List CutoffRecord) : List UpgCand :=
  records.filterMap (fun r =>
    if !(truthyInt r.id) || !(truthyInt r.artistId) then none
    else if MONITORED_ONLY && !r.monitored then none
    else some ⟨r.artistId.getD 0, r.id.getD 0⟩)

/-- The state of the upgrade loop; it keeps no list of newly processed ids,
only the count. -/
structure UpgSt where
  processed_count : ℕ
  used_indices : List ℕ
  draws : List ℕ
  trace : List Cmd
deriving DecidableEq

/-- The candidate-processing loop of process_album_upgrades
(src/upgrade/album.py lines 137-194, identical in effect to the copy at
src/main.py lines 587-638).  Unlike the missing passes, processed_count
advances only when AlbumSearch is accepted; both a refresh failure and a
search failure skip the candidate without consuming the budget. -/
def upgradeLoop (cfg : Config) (w : World) (cands : List UpgCand) :
    ℕ → UpgSt → Option UpgSt
  | 0, _ => none
  | fuel + 1, st =>
    if (st.processed_count : ℤ) ≥ cfg.HUNT_UPGRADE_ALBUMS then some st
    else if st.used_indices.length ≥ cands.length then some st
    else
      match selectIdx cfg.RANDOM_SELECTION cands.length st.draws st.used_indices with
      | SelOutcome.diverge => none
      | SelOutcome.stop => some st
      | SelOutcome.pick idx rest =>
        match cands[idx]? with
        | none => none
        | some album_obj =>
          let used' := st.used_indices ++ [idx]
          let tr1 := st.trace ++ [Cmd.refreshArtist album_obj.artistId]
          if respAccepted (w.refreshResp idx) then
            let tr2 := tr1 ++ [Cmd.albumSearch album_obj.albumId]
            if respAccepted (w.searchResp idx) then
              upgradeLoop cfg w cands fuel
                ⟨st.processed_count + 1, used', rest, tr2⟩
            else
              upgradeLoop cfg w cands fuel
                ⟨st.processed_count, used', rest, tr2⟩
          else
            upgradeLoop cfg w cands fuel
              ⟨st.processed_count, used', rest, tr1⟩

/-- process_album_upgrades (src/upgrade/album.py lines 84-196, identical in
effect to src/main.py lines 529-641): returns whether any upgrade was
processed, plus the trace of issued remote commands.  get_cutoff_albums is
collapsed into the World's cutoffRecords (it returns the empty list on any
failure). -/
def process_album_upgrades (cfg : Config) (w : World) (draws : List ℕ) :
    Option (Bool × List Cmd) :=
  if cfg.HUNT_UPGRADE_ALBUMS ≤ 0 then some (false, [])
  else
    if w.cutoffRecords.isEmpty then some (false, [Cmd.getCutoff])
    else
      let cands := upgrade_candidates_of cfg.MONITORED_ONLY w.cutoffRecords
      if cands.isEmpty then some (false, [Cmd.getCutoff])
      else
        match upgradeLoop cfg w cands (cands.length + 1)
            ⟨0, [], draws, [Cmd.getCutoff]⟩ with
        | none => none
        | some st => some (decide (0 < st.processed_count), st.trace)

/-- The last_reset_time slot of the live state dict: either a datetime value
(an instant) or the ISO string read back from the state file. -/
inductive TimeVal where
  | dt (t : ℤ)
  | str (s : String)
deriving DecidableEq

/-- The in-memory state dict as the driver maintains it (src/main.py lines
174-239): two processed-id lists and the last reset time. -/
structure PyState where
  processed_artists : List ℤ
  processed_albums : List ℤ
  last_reset_time : TimeVal
deriving DecidableEq

/-- The JSON document in the state file; the last_reset_time key may be
absent (load_state re-creates it). -/
structure StoredDoc where
  processed_artists : List ℤ
  processed_albums : List ℤ
  last_reset_time : Option String
deriving DecidableEq

/-- Decimal digit accumulation for the instant parser. -/
def digitsVal (acc : ℕ) : List Char → Option ℕ
  | [] => some acc
  | c :: cs => if c.isDigit then digitsVal (10 * acc + (c.toNat - 48)) cs else none

/-- Model of datetime.fromisoformat: parse the rendering produced by
isoOfInstant, rejecting anything else (as fromisoformat raises ValueError on
strings such as "not-a-date"). -/
def parseIso (s : String) : Option ℤ :=
  match s.data with
  | [] => none
  | '-' :: cs =>
    if cs.isEmpty then none else (digitsVal 0 cs).map (fun n => -(n : ℤ))
  | cs => (digitsVal 0 cs).map (fun n => (n : ℤ))

/-- Model of datetime.isoformat: the injective rendering of an instant to a
string. -/
def isoOfInstant (t : ℤ) : String := toString t

/-- The coercion save_state applies before serializing (src/main.py lines
203-205): a datetime becomes its isoformat string, a string is kept. -/
def timeValToStr : TimeVal → String
  | TimeVal.dt t => isoOfInstant t
  | TimeVal.str s => s

/-- save_state (src/main.py lines 200-210): serialize the state dict, with
last_reset_time coerced to its string form. -/
def save_state (st : PyState) : StoredDoc :=
  ⟨st.processed_artists, st.processed_albums, some (timeValToStr st.last_reset_time)⟩

/-- load_state (src/main.py lines 174-198): a missing or unreadable file
(the none case) yields a fresh empty state stamped now; an existing document
is returned as-is, with last_reset_time re-created as now's isoformat string
when the key is absent.  A stored time string is NOT parsed back to a
datetime here. -/
def load_state (now : ℤ) : Option StoredDoc → PyState
  | none => ⟨[], [], TimeVal.str (isoOfInstant now)⟩
  | some d =>
    ⟨d.processed_artists, d.processed_albums,
      TimeVal.str (d.last_reset_time.getD (isoOfInstant now))⟩

/-- check_reset_state (src/main.py lines 212-239): with a nonpositive
interval the state is returned untouched; otherwise the stored time is read
(an unparseable string is treated as now), and when now - last_reset exceeds
the interval both processed lists are cleared and last_reset_time becomes the
datetime now. -/
def check_reset_state (STATE_RESET_INTERVAL_HOURS : ℤ) (now : ℤ)
    (st : PyState) : PyState :=
  if STATE_RESET_INTERVAL_HOURS ≤ 0 then st
  else
    let last_reset : ℤ :=
      match st.last_reset_time with
      | TimeVal.str s => (parseIso s).getD now
      | TimeVal.dt t => t
    if now - last_reset > 3600 * STATE_RESET_INTERVAL_HOURS then
      ⟨[], [], TimeVal.dt now⟩
    else st

/-- Reading the instant a last_reset_time denotes: a datetime value denotes
itself, a string denotes its parse when it has one. -/
def timeRead : TimeVal → Option ℤ
  | TimeVal.dt t => some t
  | TimeVal.str s => parseIso s

/-- The artist ids the artist-missing loop records for a given list of
selected candidate indices: exactly those whose refresh was accepted and for
which the MissingAlbumSearch or its AlbumSearch fallback was accepted. -/
def artistRecorded (w : World) (cands : List Artist) (sel : List ℕ) : List ℤ :=
  sel.filterMap (fun i =>
    if respAccepted (w.refreshResp i)
        && (respAccepted (w.searchResp i) || respAccepted (w.fallbackResp i)) then
      (cands[i]?).map Artist.id
    else none)

/-- The album ids the album-missing loop records for a given list of selected
candidate indices: exactly those whose refresh and AlbumSearch were both
accepted. -/
def albumRecorded (w : World) (cands : List AlbumCand) (sel : List ℕ) : List ℤ :=
  sel.filterMap (fun i =>
    if respAccepted (w.refreshResp i) && respAccepted (w.searchResp i) then
      (cands[i]?).map AlbumCand.albumId
    else none)

/-- The number of candidates the upgrade loop counts as processed for a given
list of selected indices: those whose refresh and AlbumSearch were both
accepted. -/
def upgradeCounted (w : World) (sel : List ℕ) : ℕ :=
  (sel.filter (fun i =>
    respAccepted (w.refreshResp i) && respAccepted (w.searchResp i))).length

/-- A tiny concrete world used to instantiate theorems with hypotheses: one
incomplete monitored artist, one cutoff record, refresh and search accepted,
fallback failing. -/
def wDemo : World :=
  ⟨some [⟨7, true, 10, 3⟩], fun _ => none, [⟨some 4, some 9, true⟩],
    fun _ => some ["id"], fun _ => some ["id"], fun _ => none⟩

/-- A concrete world whose refresh command always fails. -/
def wRefreshFail : World :=
  ⟨some [⟨7, true, 10, 3⟩, ⟨8, true, 5, 2⟩], fun _ => none,
    [⟨some 4, some 9, true⟩], fun _ => none, fun _ => some ["id"],
    fun _ => none⟩




/-! Selection-step lemmas. -/

theorem pickRandom_spec (n : ℕ) :
    ∀ (draws used : List ℕ) (i : ℕ) (rest : List ℕ),
      pickRandom n draws used = some (i, rest) →
      used.contains i = false ∧ (0 < n → i < n) := by
  intro draws
  induction draws with
  | nil => intro used i rest h; simp [pickRandom] at h
  | cons r tl ih =>
    intro used i rest h
    rw [pickRandom] at h
    split at h
    · exact ih used i rest h
    · rename_i hc
      obtain ⟨h1, h2⟩ := Prod.mk.injEq .. ▸ Option.some.injEq .. ▸ h
      subst h1
      exact ⟨Bool.not_eq_true _ ▸ hc, fun hn => Nat.mod_lt r hn⟩

theorem pickSequential_spec (n : ℕ) (used : List ℕ) (i : ℕ)
    (h : pickSequential n used = some i) :
    used.contains i = false ∧ i < n := by
  simp [pickSequential] at h
  exact ⟨by simpa using h.1, h.2.1⟩

theorem pickSequential_none (n : ℕ) (used : List ℕ)
    (h : pickSequential n used = none) : ∀ i < n, used.contains i = true := by
  intro i hi
  rw [pickSequential, List.head?_eq_none_iff, List.filter_eq_nil_iff] at h
  have := h i (List.mem_range.mpr hi)
  simpa using this

theorem selectIdx_pick_spec (b : Bool) (n : ℕ) (draws used : List ℕ)
    (i : ℕ) (rest : List ℕ) (hn : 0 < n)
    (h : selectIdx b n draws used = SelOutcome.pick i rest) :
    used.contains i = false ∧ i < n := by
  rw [selectIdx] at h
  split at h
  · cases hp : pickRandom n draws used with
    | none => rw [hp] at h; exact absurd h (by simp)
    | some v =>
      rw [hp] at h
      obtain ⟨hi, hrest⟩ := SelOutcome.pick.injEq .. ▸ h
      obtain ⟨hc, hlt⟩ := pickRandom_spec n draws used v.1 v.2 (by simpa using hp)
      exact ⟨hi ▸ hc, hi ▸ hlt hn⟩
  · cases hp : pickSequential n used with
    | none => rw [hp] at h; exact absurd h (by simp)
    | some j =>
      rw [hp] at h
      obtain ⟨hi, hrest⟩ := SelOutcome.pick.injEq .. ▸ h
      obtain ⟨hc, hlt⟩ := pickSequential_spec n used j hp
      exact ⟨hi ▸ hc, hi ▸ hlt⟩

theorem selectIdx_stop_all_used (b : Bool) (n : ℕ) (draws used : List ℕ)
    (h : selectIdx b n draws used = SelOutcome.stop) :
    ∀ i < n, used.contains i = true := by
  rw [selectIdx] at h
  split at h
  · cases hp : pickRandom n draws used with
    | none => rw [hp] at h; exact absurd h (by simp)
    | some v => rw [hp] at h; exact absurd h (by simp)
  · cases hp : pickSequential n used with
    | none => exact pickSequential_none n used hp
    | some j => rw [hp] at h; exact absurd h (by simp)

theorem all_used_length (n : ℕ) (used : List ℕ)
    (h : ∀ i < n, used.contains i = true) : n ≤ used.length := by
  have h1 : Finset.range n ⊆ used.toFinset := by
    intro i hi
    rw [List.mem_toFinset]
    have := h i (Finset.mem_range.mp hi)
    simpa using this
  calc n = (Finset.range n).card := (Finset.card_range n).symm
    _ ≤ used.toFinset.card := Finset.card_le_card h1
    _ ≤ used.length := used.toFinset_card_le

/-- C3: check_reset_state clears both processed sets and stamps
last_reset_time with the datetime now exactly when the configured interval is
positive and the elapsed time since the recorded last reset strictly exceeds
the interval (timedelta(hours=I) being 3600 * I); and for every state a
nonpositive interval returns the state unchanged, so a reset never occurs. -/
theorem check_reset_state_spec :
    (∀ (I now : ℤ) (A B : List ℤ) (tv : TimeVal) (t : ℤ),
      timeRead tv = some t →
      check_reset_state I now ⟨A, B, tv⟩ =
        if 0 < I ∧ 3600 * I < now - t then ⟨[], [], TimeVal.dt now⟩
        else ⟨A, B, tv⟩) ∧
    (∀ (I now : ℤ) (st : PyState), I ≤ 0 → check_reset_state I now st = st) := by
  constructor
  · intro I now A B tv t ht
    rw [check_reset_state]
    split
    · rename_i hI
      rw [if_neg]
      intro hcon
      exact absurd hI (not_le.mpr hcon.1)
    · rename_i hI
      have hI' : 0 < I := lt_of_not_le hI
      cases tv with
      | dt u =>
        have hu : u = t := by simpa [timeRead] using ht
        subst hu
        by_cases hc : now - u > 3600 * I
        · rw [if_pos hc, if_pos ⟨hI', hc⟩]
        · rw [if_neg hc, if_neg (fun hcon => hc hcon.2)]
      | str s =>
        have hs : parseIso s = some t := by simpa [timeRead] using ht
        simp only [hs, Option.getD_some]
        by_cases hc : now - t > 3600 * I
        · rw [if_pos hc, if_pos ⟨hI', hc⟩]
        · rw [if_neg hc, if_neg (fun hcon => hc hcon.2)]
  · intro I now st hI
    rw [check_reset_state, if_pos hI]

theorem check_reset_state_spec_witness :
    timeRead (TimeVal.dt 0) = some 0 ∧
    check_reset_state 168 (700 * 3600) ⟨[1], [2], TimeVal.dt 0⟩ =
      (if (0 : ℤ) < 168 ∧ 3600 * 168 < 700 * 3600 - 0 then
        (⟨[], [], TimeVal.dt (700 * 3600)⟩ : PyState)
      else ⟨[1], [2], TimeVal.dt 0⟩) ∧
    check_reset_state 0 (700 * 3600) ⟨[1], [2], TimeVal.dt 0⟩ =
      ⟨[1], [2], TimeVal.dt 0⟩ :=
  ⟨rfl,
    check_reset_state_spec.1 168 (700 * 3600) [1] [2] (TimeVal.dt 0) 0 rfl,
    check_reset_state_spec.2 0 (700 * 3600) ⟨[1], [2], TimeVal.dt 0⟩ le_rfl⟩

/-- C10: when the stored last_reset_time is a string that does not parse,
check_reset_state treats the last reset as now, so no reset fires and the
state, unparseable string included, is returned unchanged — for every
interval and every current time, hence in every subsequent cycle as well. -/
theorem check_reset_state_unparseable (s : String) (hs : parseIso s = none) :
    ∀ (I now : ℤ) (A B : List ℤ),
      check_reset_state I now ⟨A, B, TimeVal.str s⟩ = ⟨A, B, TimeVal.str s⟩ := by
  intro I now A B
  rw [check_reset_state]
  split
  · rfl
  · rename_i hI
    have hI' : 0 < I := lt_of_not_le hI
    simp only [hs, Option.getD_none]
    rw [if_neg]
    intro hcon
    have : (0 : ℤ) < 3600 * I := by positivity
    omega

theorem check_reset_state_unparseable_witness :
    parseIso "not-a-date" = none ∧
    check_reset_state 168 1000000 ⟨[1], [2], TimeVal.str "not-a-date"⟩ =
      ⟨[1], [2], TimeVal.str "not-a-date"⟩ :=
  ⟨by decide,
    check_reset_state_unparseable "not-a-date" (by decide) 168 1000000 [1] [2]⟩

/-- C7: saving a checkpoint and loading it back yields the same processed
artist and album id lists, and an equivalent last_reset_time: a datetime
value comes back as its isoformat string and a string comes back unchanged
(load_state does not parse the stored string back into a datetime). -/
theorem save_load_roundtrip :
    ∀ (now : ℤ) (st : PyState),
      load_state now (some (save_state st)) =
        ⟨st.processed_artists, st.processed_albums,
          TimeVal.str (timeValToStr st.last_reset_time)⟩ := by
  intro now st
  rfl

theorem gather_eq_mod :
    ∀ (mo : Bool) (w : World) (p : List ℤ) (artists : List Artist),
      mod_gather_incomplete_albums mo w p artists =
        gather_incomplete_albums mo w p artists := by
  intro mo w p artists
  induction artists with
  | nil => rfl
  | cons a rest ih =>
    rw [mod_gather_incomplete_albums, gather_incomplete_albums, ih]

/-- C4: the incomplete-candidate filters never yield an entity whose
identifier is already in the processed set: neither the incomplete-artist
filter nor the incomplete-album gathering loop (in either of its two copies)
returns an already-processed identifier. -/
theorem incomplete_filter_fresh :
    (∀ (mo : Bool) (artists : List Artist) (p : List ℤ) (a : Artist),
      a ∈ incomplete_artists mo artists p → a.id ∉ p) ∧
    (∀ (mo : Bool) (w : World) (p : List ℤ) (artists : List Artist)
        (c : AlbumCand),
      c ∈ (gather_incomplete_albums mo w p artists).1 → c.albumId ∉ p) ∧
    (∀ (mo : Bool) (w : World) (p : List ℤ) (artists : List Artist)
        (c : AlbumCand),
      c ∈ (mod_gather_incomplete_albums mo w p artists).1 → c.albumId ∉ p) := by
  have hgather : ∀ (mo : Bool) (w : World) (p : List ℤ) (artists : List Artist)
      (c : AlbumCand),
      c ∈ (gather_incomplete_albums mo w p artists).1 → c.albumId ∉ p := by
    intro mo w p artists
    induction artists with
    | nil => intro c hc; simp [gather_incomplete_albums] at hc
    | cons a rest ih =>
      intro c hc
      rw [gather_incomplete_albums] at hc
      split at hc
      · exact ih c hc
      · simp only [List.mem_append] at hc
        rcases hc with hc | hc
        · rw [List.mem_filterMap] at hc
          obtain ⟨alb, _, hf⟩ := hc
          split_ifs at hf with h1 h2 h3
          · obtain hceq := Option.some.injEq .. ▸ hf
            intro hmem
            rw [← hceq] at hmem
            simp only at hmem
            simp [hmem] at h1
        · exact ih c hc
  refine ⟨?_, hgather, ?_⟩
  · intro mo artists p a ha
    intro hmem
    rw [incomplete_artists] at ha
    split at ha
    · have := (List.mem_filter.mp ha).2
      simp [hmem] at this
    · have := (List.mem_filter.mp ha).2
      simp [hmem] at this
  · intro mo w p artists c hc
    rw [gather_eq_mod] at hc
    exact hgather mo w p artists c hc

theorem incomplete_filter_fresh_witness :
    ((⟨7, true, 10, 3⟩ : Artist) ∈
      incomplete_artists true [⟨7, true, 10, 3⟩] [5] ∧ (7 : ℤ) ∉ [(5 : ℤ)]) ∧
    ((⟨7, 4, 2⟩ : AlbumCand) ∈
      (gather_incomplete_albums true
        ⟨some [⟨7, true, 10, 3⟩], fun _ => some [⟨4, true, 6, 4⟩], [],
          fun _ => none, fun _ => none, fun _ => none⟩
        [5] [⟨7, true, 10, 3⟩]).1 ∧ (4 : ℤ) ∉ [(5 : ℤ)]) :=
  ⟨⟨by decide,
    incomplete_filter_fresh.1 true [⟨7, true, 10, 3⟩] [5] ⟨7, true, 10, 3⟩
      (by decide)⟩,
   ⟨by decide,
    incomplete_filter_fresh.2.1 true
      ⟨some [⟨7, true, 10, 3⟩], fun _ => some [⟨4, true, 6, 4⟩], [],
        fun _ => none, fun _ => none, fun _ => none⟩
      [5] [⟨7, true, 10, 3⟩] ⟨7, 4, 2⟩ (by decide)⟩⟩

/-- C6: a pass whose item budget is configured to zero or negative is
entirely skipped: it issues no remote command at all (its trace is empty) and
returns its input unchanged — the input processed list for the two missing
passes in both code generations, and the no-processing answer false for the
upgrade pass, which keeps no processed list. -/
theorem zero_budget_skips_pass :
    (∀ (cfg : Config) (w : World) (draws : List ℕ) (p : List ℤ),
      cfg.HUNT_MISSING_ITEMS ≤ 0 →
      process_artists_missing cfg w draws p = some (p, [])) ∧
    (∀ (cfg : Config) (w : World) (draws : List ℕ) (p : List ℤ),
      cfg.HUNT_MISSING_ITEMS ≤ 0 →
      process_albums_missing cfg w draws p = some (p, [])) ∧
    (∀ (cfg : Config) (w : World) (draws : List ℕ) (p : List ℤ),
      cfg.HUNT_MISSING_ITEMS ≤ 0 →
      mod_process_albums_missing cfg w draws p = some (p, [])) ∧
    (∀ (cfg : Config) (w : World) (draws : List ℕ),
      cfg.HUNT_UPGRADE_ALBUMS ≤ 0 →
      process_album_upgrades cfg w draws = some (false, [])) := by
  refine ⟨?_, ?_, ?_, ?_⟩
  · intro cfg w draws p h
    rw [process_artists_missing, if_pos h]
  · intro cfg w draws p h
    rw [process_albums_missing, if_pos h]
  · intro cfg w draws p h
    rw [mod_process_albums_missing, if_pos h]
  · intro cfg w draws h
    rw [process_album_upgrades, if_pos h]

theorem zero_budget_skips_pass_witness :
    process_artists_missing ⟨0, 0, true, true⟩ wDemo [] [3] = some ([3], []) ∧
    process_albums_missing ⟨0, 0, true, true⟩ wDemo [] [3] = some ([3], []) ∧
    mod_process_albums_missing ⟨0, 0, true, true⟩ wDemo [] [3] =
      some ([3], []) ∧
    process_album_upgrades ⟨1, 0, true, true⟩ wDemo [] = some (false, []) :=
  ⟨zero_budget_skips_pass.1 ⟨0, 0, true, true⟩ wDemo [] [3] le_rfl,
   zero_budget_skips_pass.2.1 ⟨0, 0, true, true⟩ wDemo [] [3] le_rfl,
   zero_budget_skips_pass.2.2.1 ⟨0, 0, true, true⟩ wDemo [] [3] le_rfl,
   zero_budget_skips_pass.2.2.2 ⟨1, 0, true, true⟩ wDemo [] le_rfl⟩

theorem artistLoop_invariant (cfg : Config) (w : World) (cands : List Artist) :
    ∀ (fuel : ℕ) (st st' : LoopSt),
      artistLoop cfg w cands fuel st = some st' →
      st.used_indices.Nodup → (∀ i ∈ st.used_indices, i < cands.length) →
      (st'.used_indices.Nodup ∧
       (∀ i ∈ st'.used_indices, i < cands.length) ∧
       (st'.processed_count : ℤ) ≤
         max (st.processed_count : ℤ) cfg.HUNT_MISSING_ITEMS ∧
       ((st'.processed_count : ℤ) < cfg.HUNT_MISSING_ITEMS →
         cands.length ≤ st'.used_indices.length)) := by
  intro fuel
  induction fuel with
  | zero => intro st st' h; simp [artistLoop] at h
  | succ fuel ih =>
    intro st st' h hnd hbd
    rw [artistLoop] at h
    split at h
    · rename_i hg1
      cases h
      exact ⟨hnd, hbd, le_max_left _ _, fun hlt => absurd hlt (not_lt.mpr hg1)⟩
    · rename_i hg1
      split at h
      · rename_i hg2
        cases h
        exact ⟨hnd, hbd, le_max_left _ _, fun _ => hg2⟩
      · rename_i hg2
        have hn : 0 < cands.length := by omega
        split at h
        · exact absurd h (by simp)
        · rename_i hsel
          cases h
          refine ⟨hnd, hbd, le_max_left _ _, fun _ => ?_⟩
          exact all_used_length cands.length st.used_indices
            (selectIdx_stop_all_used _ _ _ _ hsel)
        · rename_i idx rest hsel
          obtain ⟨hcontains, hidx_lt⟩ :=
            selectIdx_pick_spec cfg.RANDOM_SELECTION cands.length st.draws
              st.used_indices idx rest hn hsel
          have hnotin : idx ∉ st.used_indices := by simpa using hcontains
          have hnd' : (st.used_indices ++ [idx]).Nodup := by
            simp [List.nodup_append, hnd, hnotin]
          have hbd' : ∀ i ∈ st.used_indices ++ [idx], i < cands.length := by
            intro i hi
            rcases List.mem_append.mp hi with hi | hi
            · exact hbd i hi
            · rw [List.mem_singleton] at hi; subst hi; exact hidx_lt
          have hcount : (st.processed_count : ℤ) < cfg.HUNT_MISSING_ITEMS := by
            omega
          split at h
          · exact absurd h (by simp)
          · rename_i artist hget
            have step : ∀ st₂ : LoopSt,
                artistLoop cfg w cands fuel st₂ = some st' →
                st₂.used_indices = st.used_indices ++ [idx] →
                (st₂.processed_count = st.processed_count ∨
                 st₂.processed_count = st.processed_count + 1) →
                (st'.used_indices.Nodup ∧
                 (∀ i ∈ st'.used_indices, i < cands.length) ∧
                 (st'.processed_count : ℤ) ≤
                   max (st.processed_count : ℤ) cfg.HUNT_MISSING_ITEMS ∧
                 ((st'.processed_count : ℤ) < cfg.HUNT_MISSING_ITEMS →
                   cands.length ≤ st'.used_indices.length)) := by
              intro st₂ h₂ hu₂ hc₂
              obtain ⟨c1, c2, c3, c4⟩ := ih st₂ st' h₂ (hu₂ ▸ hnd') (hu₂ ▸ hbd')
              refine ⟨c1, c2, ?_, c4⟩
              have hb : (st₂.processed_count : ℤ) ≤ cfg.HUNT_MISSING_ITEMS := by
                rcases hc₂ with hc₂ | hc₂ <;> rw [hc₂] <;> push_cast <;> omega
              calc (st'.processed_count : ℤ)
                  ≤ max (st₂.processed_count : ℤ) cfg.HUNT_MISSING_ITEMS := c3
                _ = cfg.HUNT_MISSING_ITEMS := max_eq_right hb
                _ ≤ max (st.processed_count : ℤ) cfg.HUNT_MISSING_ITEMS :=
                    le_max_right _ _
            split at h
            · split at h
              · exact step _ h rfl (Or.inr rfl)
              · split at h
                · exact step _ h rfl (Or.inr rfl)
                · exact step _ h rfl (Or.inr rfl)
            · exact step _ h rfl (Or.inl rfl)

theorem albumLoop_invariant (cfg : Config) (w : World) (cands : List AlbumCand) :
    ∀ (fuel : ℕ) (st st' : LoopSt),
      albumLoop cfg w cands fuel st = some st' →
      st.used_indices.Nodup → (∀ i ∈ st.used_indices, i < cands.length) →
      (st'.used_indices.Nodup ∧
       (∀ i ∈ st'.used_indices, i < cands.length) ∧
       (st'.processed_count : ℤ) ≤
         max (st.processed_count : ℤ) cfg.HUNT_MISSING_ITEMS ∧
       ((st'.processed_count : ℤ) < cfg.HUNT_MISSING_ITEMS →
         cands.length ≤ st'.used_indices.length)) := by
  intro fuel
  induction fuel with
  | zero => intro st st' h; simp [albumLoop] at h
  | succ fuel ih =>
    intro st st' h hnd hbd
    rw [albumLoop] at h
    split at h
    · rename_i hg1
      cases h
      exact ⟨hnd, hbd, le_max_left _ _, fun hlt => absurd hlt (not_lt.mpr hg1)⟩
    · rename_i hg1
      split at h
      · rename_i hg2
        cases h
        exact ⟨hnd, hbd, le_max_left _ _, fun _ => hg2⟩
      · rename_i hg2
        have hn : 0 < cands.length := by omega
        split at h
        · exact absurd h (by simp)
        · rename_i hsel
          cases h
          refine ⟨hnd, hbd, le_max_left _ _, fun _ => ?_⟩
          exact all_used_length cands.length st.used_indices
            (selectIdx_stop_all_used _ _ _ _ hsel)
        · rename_i idx rest hsel
          obtain ⟨hcontains, hidx_lt⟩ :=
            selectIdx_pick_spec cfg.RANDOM_SELECTION cands.length st.draws
              st.used_indices idx rest hn hsel
          have hnotin : idx ∉ st.used_indices := by simpa using hcontains
          have hnd' : (st.used_indices ++ [idx]).Nodup := by
            simp [List.nodup_append, hnd, hnotin]
          have hbd' : ∀ i ∈ st.used_indices ++ [idx], i < cands.length := by
            intro i hi
            rcases List.mem_append.mp hi with hi | hi
            · exact hbd i hi
            · rw [List.mem_singleton] at hi; subst hi; exact hidx_lt
          have hcount : (st.processed_count : ℤ) < cfg.HUNT_MISSING_ITEMS := by
            omega
          split at h
          · exact absurd h (by simp)
          · rename_i album_obj hget
            have step : ∀ st₂ : LoopSt,
                albumLoop cfg w cands fuel st₂ = some st' →
                st₂.used_indices = st.used_indices ++ [idx] →
                (st₂.processed_count = st.processed_count ∨
                 st₂.processed_count = st.processed_count + 1) →
                (st'.used_indices.Nodup ∧
                 (∀ i ∈ st'.used_indices, i < cands.length) ∧
                 (st'.processed_count : ℤ) ≤
                   max (st.processed_count : ℤ) cfg.HUNT_MISSING_ITEMS ∧
                 ((st'.processed_count : ℤ) < cfg.HUNT_MISSING_ITEMS →
                   cands.length ≤ st'.used_indices.length)) := by
              intro st₂ h₂ hu₂ hc₂
              obtain ⟨c1, c2, c3, c4⟩ := ih st₂ st' h₂ (hu₂ ▸ hnd') (hu₂ ▸ hbd')
              refine ⟨c1, c2, ?_, c4⟩
              have hb : (st₂.processed_count : ℤ) ≤ cfg.HUNT_MISSING_ITEMS := by
                rcases hc₂ with hc₂ | hc₂ <;> rw [hc₂] <;> push_cast <;> omega
              calc (st'.processed_count : ℤ)
                  ≤ max (st₂.processed_count : ℤ) cfg.HUNT_MISSING_ITEMS := c3
                _ = cfg.HUNT_MISSING_ITEMS := max_eq_right hb
                _ ≤ max (st.processed_count : ℤ) cfg.HUNT_MISSING_ITEMS :=
                    le_max_right _ _
            split at h
            · split at h
              · exact step _ h rfl (Or.inr rfl)
              · exact step _ h rfl (Or.inr rfl)
            · exact step _ h rfl (Or.inl rfl)

theorem upgradeLoop_invariant (cfg : Config) (w : World) (cands : List UpgCand) :
    ∀ (fuel : ℕ) (st st' : UpgSt),
      upgradeLoop cfg w cands fuel st = some st' →
      st.used_indices.Nodup → (∀ i ∈ st.used_indices, i < cands.length) →
      (st'.used_indices.Nodup ∧
       (∀ i ∈ st'.used_indices, i < cands.length) ∧
       (st'.processed_count : ℤ) ≤
         max (st.processed_count : ℤ) cfg.HUNT_UPGRADE_ALBUMS ∧
       ((st'.processed_count : ℤ) < cfg.HUNT_UPGRADE_ALBUMS →
         cands.length ≤ st'.used_indices.length)) := by
  intro fuel
  induction fuel with
  | zero => intro st st' h; simp [upgradeLoop] at h
  | succ fuel ih =>
    intro st st' h hnd hbd
    rw [upgradeLoop] at h
    split at h
    · rename_i hg1
      cases h
      exact ⟨hnd, hbd, le_max_left _ _, fun hlt => absurd hlt (not_lt.mpr hg1)⟩
    · rename_i hg1
      split at h
      · rename_i hg2
        cases h
        exact ⟨hnd, hbd, le_max_left _ _, fun _ => hg2⟩
      · rename_i hg2
        have hn : 0 < cands.length := by omega
        split at h
        · exact absurd h (by simp)
        · rename_i hsel
          cases h
          refine ⟨hnd, hbd, le_max_left _ _, fun _ => ?_⟩
          exact all_used_length cands.length st.used_indices
            (selectIdx_stop_all_used _ _ _ _ hsel)
        · rename_i idx rest hsel
          obtain ⟨hcontains, hidx_lt⟩ :=
            selectIdx_pick_spec cfg.RANDOM_SELECTION cands.length st.draws
              st.used_indices idx rest hn hsel
          have hnotin : idx ∉ st.used_indices := by simpa using hcontains
          have hnd' : (st.used_indices ++ [idx]).Nodup := by
            simp [List.nodup_append, hnd, hnotin]
          have hbd' : ∀ i ∈ st.used_indices ++ [idx], i < cands.length := by
            intro i hi
            rcases List.mem_append.mp hi with hi | hi
            · exact hbd i hi
            · rw [List.mem_singleton] at hi; subst hi; exact hidx_lt
          have hcount : (st.processed_count : ℤ) < cfg.HUNT_UPGRADE_ALBUMS := by
            omega
          split at h
          · exact absurd h (by simp)
          · rename_i album_obj hget
            have step : ∀ st₂ : UpgSt,
                upgradeLoop cfg w cands fuel st₂ = some st' →
                st₂.used_indices = st.used_indices ++ [idx] →
                (st₂.processed_count = st.processed_count ∨
                 st₂.processed_count = st.processed_count + 1) →
                (st'.used_indices.Nodup ∧
                 (∀ i ∈ st'.used_indices, i < cands.length) ∧
                 (st'.processed_count : ℤ) ≤
                   max (st.processed_count : ℤ) cfg.HUNT_UPGRADE_ALBUMS ∧
                 ((st'.processed_count : ℤ) < cfg.HUNT_UPGRADE_ALBUMS →
                   cands.length ≤ st'.used_indices.length)) := by
              intro st₂ h₂ hu₂ hc₂
              obtain ⟨c1, c2, c3, c4⟩ := ih st₂ st' h₂ (hu₂ ▸ hnd') (hu₂ ▸ hbd')
              refine ⟨c1, c2, ?_, c4⟩
              have hb : (st₂.processed_count : ℤ) ≤ cfg.HUNT_UPGRADE_ALBUMS := by
                rcases hc₂ with hc₂ | hc₂ <;> rw [hc₂] <;> push_cast <;> omega
              calc (st'.processed_count : ℤ)
                  ≤ max (st₂.processed_count : ℤ) cfg.HUNT_UPGRADE_ALBUMS := c3
                _ = cfg.HUNT_UPGRADE_ALBUMS := max_eq_right hb
                _ ≤ max (st.processed_count : ℤ) cfg.HUNT_UPGRADE_ALBUMS :=
                    le_max_right _ _
            split at h
            · split at h
              · exact step _ h rfl (Or.inr rfl)
              · exact step _ h rfl (Or.inl rfl)
            · exact step _ h rfl (Or.inl rfl)

/-- C1: in any terminating run of a pass loop from its initial state, the
selected candidate indices (used_indices, in selection order) are pairwise
distinct — no candidate index is ever selected twice — and the number of
candidates counted against the configured positive bound never exceeds that
bound (HUNT_MISSING_ITEMS for the missing loops, HUNT_UPGRADE_ALBUMS for the
upgrade loop); the count falls short of the bound only when every candidate
index has been selected, i.e. the candidate list is exhausted. -/
theorem selection_bounded :
    (∀ (cfg : Config) (w : World) (cands : List Artist) (fuel : ℕ)
        (draws : List ℕ) (tr : List Cmd) (st' : LoopSt),
      0 < cfg.HUNT_MISSING_ITEMS →
      artistLoop cfg w cands fuel ⟨0, [], [], draws, tr⟩ = some st' →
      st'.used_indices.Nodup ∧
      (st'.processed_count : ℤ) ≤ cfg.HUNT_MISSING_ITEMS ∧
      ((st'.processed_count : ℤ) < cfg.HUNT_MISSING_ITEMS →
        cands.length ≤ st'.used_indices.length)) ∧
    (∀ (cfg : Config) (w : World) (cands : List AlbumCand) (fuel : ℕ)
        (draws : List ℕ) (tr : List Cmd) (st' : LoopSt),
      0 < cfg.HUNT_MISSING_ITEMS →
      albumLoop cfg w cands fuel ⟨0, [], [], draws, tr⟩ = some st' →
      st'.used_indices.Nodup ∧
      (st'.processed_count : ℤ) ≤ cfg.HUNT_MISSING_ITEMS ∧
      ((st'.processed_count : ℤ) < cfg.HUNT_MISSING_ITEMS →
        cands.length ≤ st'.used_indices.length)) ∧
    (∀ (cfg : Config) (w : World) (cands : List UpgCand) (fuel : ℕ)
        (draws : List ℕ) (tr : List Cmd) (st' : UpgSt),
      0 < cfg.HUNT_UPGRADE_ALBUMS →
      upgradeLoop cfg w cands fuel ⟨0, [], draws, tr⟩ = some st' →
      st'.used_indices.Nodup ∧
      (st'.processed_count : ℤ) ≤ cfg.HUNT_UPGRADE_ALBUMS ∧
      ((st'.processed_count : ℤ) < cfg.HUNT_UPGRADE_ALBUMS →
        cands.length ≤ st'.used_indices.length)) := by
  refine ⟨?_, ?_, ?_⟩
  · intro cfg w cands fuel draws tr st' hpos h
    obtain ⟨c1, c2, c3, c4⟩ :=
      artistLoop_invariant cfg w cands fuel ⟨0, [], [], draws, tr⟩ st' h
        List.nodup_nil (by intro i hi; simp at hi)
    refine ⟨c1, ?_, c4⟩
    calc (st'.processed_count : ℤ)
        ≤ max ((0 : ℕ) : ℤ) cfg.HUNT_MISSING_ITEMS := c3
      _ = cfg.HUNT_MISSING_ITEMS := by
          rw [max_eq_right]; push_cast; omega
  · intro cfg w cands fuel draws tr st' hpos h
    obtain ⟨c1, c2, c3, c4⟩ :=
      albumLoop_invariant cfg w cands fuel ⟨0, [], [], draws, tr⟩ st' h
        List.nodup_nil (by intro i hi; simp at hi)
    refine ⟨c1, ?_, c4⟩
    calc (st'.processed_count : ℤ)
        ≤ max ((0 : ℕ) : ℤ) cfg.HUNT_MISSING_ITEMS := c3
      _ = cfg.HUNT_MISSING_ITEMS := by
          rw [max_eq_right]; push_cast; omega
  · intro cfg w cands fuel draws tr st' hpos h
    obtain ⟨c1, c2, c3, c4⟩ :=
      upgradeLoop_invariant cfg w cands fuel ⟨0, [], draws, tr⟩ st' h
        List.nodup_nil (by intro i hi; simp at hi)
    refine ⟨c1, ?_, c4⟩
    calc (st'.processed_count : ℤ)
        ≤ max ((0 : ℕ) : ℤ) cfg.HUNT_UPGRADE_ALBUMS := c3
      _ = cfg.HUNT_UPGRADE_ALBUMS := by
          rw [max_eq_right]; push_cast; omega

theorem selection_bounded_witness :
    (0 : ℤ) < 1 ∧
    artistLoop ⟨1, 1, false, true⟩ wDemo [⟨7, true, 10, 3⟩] 2
        ⟨0, [], [], [], []⟩ =
      some ⟨1, [0], [7], [],
        [Cmd.refreshArtist 7, Cmd.missingAlbumSearch 7]⟩ ∧
    (([0] : List ℕ).Nodup ∧
     ((1 : ℕ) : ℤ) ≤ (1 : ℤ) ∧
     (((1 : ℕ) : ℤ) < (1 : ℤ) → 1 ≤ ([0] : List ℕ).length)) :=
  ⟨by decide, by decide,
    selection_bounded.1 ⟨1, 1, false, true⟩ wDemo [⟨7, true, 10, 3⟩] 2 [] []
      ⟨1, [0], [7], [], [Cmd.refreshArtist 7, Cmd.missingAlbumSearch 7]⟩
      (by decide) (by decide)⟩

theorem artistLoop_delta (cfg : Config) (w : World) (cands : List Artist) :
    ∀ (fuel : ℕ) (st st' : LoopSt),
      artistLoop cfg w cands fuel st = some st' →
      ∃ sel, st'.used_indices = st.used_indices ++ sel ∧
        st'.newly_processed =
          st.newly_processed ++ artistRecorded w cands sel := by
  intro fuel
  induction fuel with
  | zero => intro st st' h; simp [artistLoop] at h
  | succ fuel ih =>
    intro st st' h
    rw [artistLoop] at h
    split at h
    · cases h; exact ⟨[], by simp [artistRecorded]⟩
    · split at h
      · cases h; exact ⟨[], by simp [artistRecorded]⟩
      · split at h
        · exact absurd h (by simp)
        · cases h; exact ⟨[], by simp [artistRecorded]⟩
        · rename_i idx rest hsel
          split at h
          · exact absurd h (by simp)
          · rename_i artist hget
            split at h
            · rename_i hrefresh
              split at h
              · rename_i hsearch
                obtain ⟨sel', hu, hn⟩ := ih _ st' h
                refine ⟨idx :: sel', ?_, ?_⟩
                · simp only [hu]; simp
                · simp only [hn]
                  have : artistRecorded w cands (idx :: sel') =
                      artist.id :: artistRecorded w cands sel' := by
                    simp [artistRecorded, hrefresh, hsearch, hget]
                  simp [this]
              · rename_i hsearch
                split at h
                · rename_i hfall
                  obtain ⟨sel', hu, hn⟩ := ih _ st' h
                  refine ⟨idx :: sel', ?_, ?_⟩
                  · simp only [hu]; simp
                  · simp only [hn]
                    have : artistRecorded w cands (idx :: sel') =
                        artist.id :: artistRecorded w cands sel' := by
                      simp [artistRecorded, hrefresh, hfall, hget]
                    simp [this]
                · rename_i hfall
                  obtain ⟨sel', hu, hn⟩ := ih _ st' h
                  refine ⟨idx :: sel', ?_, ?_⟩
                  · simp only [hu]; simp
                  · simp only [hn]
                    have : artistRecorded w cands (idx :: sel') =
                        artistRecorded w cands sel' := by
                      simp only [artistRecorded, List.filterMap_cons]
                      rw [if_neg]
                      simp only [Bool.not_eq_true] at hsearch hfall
                      simp [hrefresh, hsearch, hfall]
                    simp [this]
            · rename_i hrefresh
              obtain ⟨sel', hu, hn⟩ := ih _ st' h
              refine ⟨idx :: sel', ?_, ?_⟩
              · simp only [hu]; simp
              · simp only [hn]
                have : artistRecorded w cands (idx :: sel') =
                    artistRecorded w cands sel' := by
                  simp only [artistRecorded, List.filterMap_cons]
                  rw [if_neg]
                  simp only [Bool.not_eq_true] at hrefresh
                  simp [hrefresh]
                simp [this]

theorem albumLoop_delta (cfg : Config) (w : World) (cands : List AlbumCand) :
    ∀ (fuel : ℕ) (st st' : LoopSt),
      albumLoop cfg w cands fuel st = some st' →
      ∃ sel, st'.used_indices = st.used_indices ++ sel ∧
        st'.newly_processed =
          st.newly_processed ++ albumRecorded w cands sel := by
  intro fuel
  induction fuel with
  | zero => intro st st' h; simp [albumLoop] at h
  | succ fuel ih =>
    intro st st' h
    rw [albumLoop] at h
    split at h
    · cases h; exact ⟨[], by simp [albumRecorded]⟩
    · split at h
      · cases h; exact ⟨[], by simp [albumRecorded]⟩
      · split at h
        · exact absurd h (by simp)
        · cases h; exact ⟨[], by simp [albumRecorded]⟩
        · rename_i idx rest hsel
          split at h
          · exact absurd h (by simp)
          · rename_i album_obj hget
            split at h
            · rename_i hrefresh
              split at h
              · rename_i hsearch
                obtain ⟨sel', hu, hn⟩ := ih _ st' h
                refine ⟨idx :: sel', ?_, ?_⟩
                · simp only [hu]; simp
                · simp only [hn]
                  have : albumRecorded w cands (idx :: sel') =
                      album_obj.albumId :: albumRecorded w cands sel' := by
                    simp [albumRecorded, hrefresh, hsearch, hget]
                  simp [this]
              · rename_i hsearch
                obtain ⟨sel', hu, hn⟩ := ih _ st' h
                refine ⟨idx :: sel', ?_, ?_⟩
                · simp only [hu]; simp
                · simp only [hn]
                  have : albumRecorded w cands (idx :: sel') =
                      albumRecorded w cands sel' := by
                    simp only [albumRecorded, List.filterMap_cons]
                    rw [if_neg]
                    simp only [Bool.not_eq_true] at hsearch
                    simp [hrefresh, hsearch]
                  simp [this]
            · rename_i hrefresh
              obtain ⟨sel', hu, hn⟩ := ih _ st' h
              refine ⟨idx :: sel', ?_, ?_⟩
              · simp only [hu]; simp
              · simp only [hn]
                have : albumRecorded w cands (idx :: sel') =
                    albumRecorded w cands sel' := by
                  simp only [albumRecorded, List.filterMap_cons]
                  rw [if_neg]
                  simp only [Bool.not_eq_true] at hrefresh
                  simp [hrefresh]
                simp [this]

theorem upgradeLoop_delta (cfg : Config) (w : World) (cands : List UpgCand) :
    ∀ (fuel : ℕ) (st st' : UpgSt),
      upgradeLoop cfg w cands fuel st = some st' →
      ∃ sel, st'.used_indices = st.used_indices ++ sel ∧
        st'.processed_count = st.processed_count + upgradeCounted w sel := by
  intro fuel
  induction fuel with
  | zero => intro st st' h; simp [upgradeLoop] at h
  | succ fuel ih =>
    intro st st' h
    rw [upgradeLoop] at h
    split at h
    · cases h; exact ⟨[], by simp [upgradeCounted]⟩
    · split at h
      · cases h; exact ⟨[], by simp [upgradeCounted]⟩
      · split at h
        · exact absurd h (by simp)
        · cases h; exact ⟨[], by simp [upgradeCounted]⟩
        · rename_i idx rest hsel
          split at h
          · exact absurd h (by simp)
          · rename_i album_obj hget
            split at h
            · rename_i hrefresh
              split at h
              · rename_i hsearch
                obtain ⟨sel', hu, hn⟩ := ih _ st' h
                refine ⟨idx :: sel', ?_, ?_⟩
                · simp only [hu]; simp
                · simp only [hn]
                  have : upgradeCounted w (idx :: sel') =
                      upgradeCounted w sel' + 1 := by
                    simp [upgradeCounted, hrefresh, hsearch]
                  omega
              · rename_i hsearch
                obtain ⟨sel', hu, hn⟩ := ih _ st' h
                refine ⟨idx :: sel', ?_, ?_⟩
                · simp only [hu]; simp
                · simp only [hn]
                  have : upgradeCounted w (idx :: sel') =
                      upgradeCounted w sel' := by
                    simp only [upgradeCounted, List.filter_cons]
                    rw [if_neg]
                    simp only [Bool.not_eq_true] at hsearch
                    simp [hrefresh, hsearch]
                  omega
            · rename_i hrefresh
              obtain ⟨sel', hu, hn⟩ := ih _ st' h
              refine ⟨idx :: sel', ?_, ?_⟩
              · simp only [hu]; simp
              · simp only [hn]
                have : upgradeCounted w (idx :: sel') =
                    upgradeCounted w sel' := by
                  simp only [upgradeCounted, List.filter_cons]
                  rw [if_neg]
                  simp only [Bool.not_eq_true] at hrefresh
                  simp [hrefresh]
                omega

/-- C2: in any terminating run of a pass loop, the identifiers recorded as
processed are exactly those of the selected candidates whose search command
received an accepted response (a response body carrying the "id" key): the
missing-artist loop records an artist id exactly when the refresh was
accepted and the MissingAlbumSearch or its AlbumSearch fallback was accepted;
the missing-album loop records an album id exactly when the refresh and the
AlbumSearch were accepted; the upgrade loop, which keeps a count rather than
a list, counts a candidate as processed exactly when the refresh and the
AlbumSearch were accepted.  On an unacknowledged or absent response the
identifier is not recorded. -/
theorem processed_iff_search_accepted :
    (∀ (cfg : Config) (w : World) (cands : List Artist) (fuel : ℕ)
        (st st' : LoopSt),
      artistLoop cfg w cands fuel st = some st' →
      ∃ sel, st'.used_indices = st.used_indices ++ sel ∧
        st'.newly_processed =
          st.newly_processed ++ artistRecorded w cands sel) ∧
    (∀ (cfg : Config) (w : World) (cands : List AlbumCand) (fuel : ℕ)
        (st st' : LoopSt),
      albumLoop cfg w cands fuel st = some st' →
      ∃ sel, st'.used_indices = st.used_indices ++ sel ∧
        st'.newly_processed =
          st.newly_processed ++ albumRecorded w cands sel) ∧
    (∀ (cfg : Config) (w : World) (cands : List UpgCand) (fuel : ℕ)
        (st st' : UpgSt),
      upgradeLoop cfg w cands fuel st = some st' →
      ∃ sel, st'.used_indices = st.used_indices ++ sel ∧
        st'.processed_count = st.processed_count + upgradeCounted w sel) :=
  ⟨fun cfg w cands fuel st st' h => artistLoop_delta cfg w cands fuel st st' h,
   fun cfg w cands fuel st st' h => albumLoop_delta cfg w cands fuel st st' h,
   fun cfg w cands fuel st st' h => upgradeLoop_delta cfg w cands fuel st st' h⟩

theorem processed_iff_search_accepted_witness :
    (∃ sel, ([0] : List ℕ) = [] ++ sel ∧
      ([7] : List ℤ) = [] ++ artistRecorded wDemo [⟨7, true, 10, 3⟩] sel) ∧
    (∃ sel, ([0] : List ℕ) = [] ++ sel ∧
      ([4] : List ℤ) = [] ++ albumRecorded wDemo [⟨9, 4, 2⟩] sel) ∧
    (∃ sel, ([0] : List ℕ) = [] ++ sel ∧
      (1 : ℕ) = 0 + upgradeCounted wDemo sel) :=
  ⟨processed_iff_search_accepted.1 ⟨1, 1, false, true⟩ wDemo
      [⟨7, true, 10, 3⟩] 2 ⟨0, [], [], [], []⟩
      ⟨1, [0], [7], [], [Cmd.refreshArtist 7, Cmd.missingAlbumSearch 7]⟩
      (by decide),
   processed_iff_search_accepted.2.1 ⟨1, 1, false, true⟩ wDemo
      [⟨9, 4, 2⟩] 2 ⟨0, [], [], [], []⟩
      ⟨1, [0], [4], [], [Cmd.refreshArtist 9, Cmd.albumSearch 4]⟩
      (by decide),
   processed_iff_search_accepted.2.2 ⟨1, 1, false, true⟩ wDemo
      [⟨9, 4⟩] 2 ⟨0, [], [], []⟩
      ⟨1, [0], [], [Cmd.refreshArtist 9, Cmd.albumSearch 4]⟩
      (by decide)⟩

/-- C5: when the refresh command for the selected candidate fails (no
response, or a response without "id"), the candidate is skipped: nothing is
added to newly_processed, processed_count is not advanced, and the loop
continues with the next iteration on the remaining candidates — stated for
the missing-artist and the missing-album loops as a one-iteration unfolding
equation. -/
theorem refresh_failure_skips :
    (∀ (cfg : Config) (w : World) (cands : List Artist) (fuel : ℕ)
        (st : LoopSt) (idx : ℕ) (rest : List ℕ) (artist : Artist),
      ¬(st.processed_count : ℤ) ≥ cfg.HUNT_MISSING_ITEMS →
      ¬st.used_indices.length ≥ cands.length →
      selectIdx cfg.RANDOM_SELECTION cands.length st.draws st.used_indices =
        SelOutcome.pick idx rest →
      cands[idx]? = some artist →
      respAccepted (w.refreshResp idx) = false →
      artistLoop cfg w cands (fuel + 1) st =
        artistLoop cfg w cands fuel
          ⟨st.processed_count, st.used_indices ++ [idx], st.newly_processed,
            rest, st.trace ++ [Cmd.refreshArtist artist.id]⟩) ∧
    (∀ (cfg : Config) (w : World) (cands : List AlbumCand) (fuel : ℕ)
        (st : LoopSt) (idx : ℕ) (rest : List ℕ) (album_obj : AlbumCand),
      ¬(st.processed_count : ℤ) ≥ cfg.HUNT_MISSING_ITEMS →
      ¬st.used_indices.length ≥ cands.length →
      selectIdx cfg.RANDOM_SELECTION cands.length st.draws st.used_indices =
        SelOutcome.pick idx rest →
      cands[idx]? = some album_obj →
      respAccepted (w.refreshResp idx) = false →
      albumLoop cfg w cands (fuel + 1) st =
        albumLoop cfg w cands fuel
          ⟨st.processed_count, st.used_indices ++ [idx], st.newly_processed,
            rest, st.trace ++ [Cmd.refreshArtist album_obj.artistId]⟩) := by
  constructor
  · intro cfg w cands fuel st idx rest artist hg1 hg2 hsel hget hrefresh
    rw [artistLoop, if_neg hg1, if_neg hg2, hsel]
    simp [hget, hrefresh]
  · intro cfg w cands fuel st idx rest album_obj hg1 hg2 hsel hget hrefresh
    rw [albumLoop, if_neg hg1, if_neg hg2, hsel]
    simp [hget, hrefresh]

theorem refresh_failure_skips_witness :
    artistLoop ⟨1, 1, false, true⟩ wRefreshFail
        [⟨7, true, 10, 3⟩, ⟨8, true, 5, 2⟩] 3 ⟨0, [], [], [], []⟩ =
      artistLoop ⟨1, 1, false, true⟩ wRefreshFail
        [⟨7, true, 10, 3⟩, ⟨8, true, 5, 2⟩] 2
        ⟨0, [0], [], [], [Cmd.refreshArtist 7]⟩ ∧
    albumLoop ⟨1, 1, false, true⟩ wRefreshFail [⟨9, 4, 2⟩, ⟨9, 5, 1⟩] 3
        ⟨0, [], [], [], []⟩ =
      albumLoop ⟨1, 1, false, true⟩ wRefreshFail [⟨9, 4, 2⟩, ⟨9, 5, 1⟩] 2
        ⟨0, [0], [], [], [Cmd.refreshArtist 9]⟩ :=
  ⟨refresh_failure_skips.1 ⟨1, 1, false, true⟩ wRefreshFail
      [⟨7, true, 10, 3⟩, ⟨8, true, 5, 2⟩] 2 ⟨0, [], [], [], []⟩ 0 []
      ⟨7, true, 10, 3⟩ (by decide) (by decide) (by decide) (by decide)
      (by decide),
   refresh_failure_skips.2 ⟨1, 1, false, true⟩ wRefreshFail
      [⟨9, 4, 2⟩, ⟨9, 5, 1⟩] 2 ⟨0, [], [], [], []⟩ 0 [] ⟨9, 4, 2⟩
      (by decide) (by decide) (by decide) (by decide) (by decide)⟩

theorem mod_albumLoop_eq (cfg : Config) (w : World) (cands : List AlbumCand) :
    ∀ (fuel : ℕ) (st : LoopSt),
      mod_albumLoop cfg w cands fuel st = albumLoop cfg w cands fuel st := by
  intro fuel
  induction fuel with
  | zero => intro st; rfl
  | succ fuel ih =>
    intro st
    rw [mod_albumLoop, albumLoop]
    simp only [ih]

theorem albums_missing_generations_eq :
    ∀ (cfg : Config) (w : World) (draws : List ℕ) (p : List ℤ),
      process_albums_missing cfg w draws p =
        mod_process_albums_missing cfg w draws p := by
  intro cfg w draws p
  rw [process_albums_missing, mod_process_albums_missing]
  simp only [gather_eq_mod, mod_albumLoop_eq]

/-- C8: the inline process_albums_missing of the main entry point and the
modularized process_albums_missing of missing/album.py compute the same
result: on the same input processed list, the same remote world (snapshot
and command responses) and the same random draws, both return the same
updated processed-album list, and they even issue the same remote commands
(the module version differs only by extra sleeps and log lines). -/
theorem albums_missing_codepaths_agree :
    ∀ (cfg : Config) (w : World) (draws : List ℕ) (p : List ℤ),
      process_albums_missing cfg w draws p =
        mod_process_albums_missing cfg w draws p :=
  albums_missing_generations_eq

/-- C9: each missing-content pass is monotone on the processed list: whenever
it returns, the result is exactly the input processed list with the newly
processed identifiers appended — the input is an initial segment of the
output and nothing is ever removed.  This holds for the artist pass and for
both copies of the album pass. -/
theorem missing_pass_appends :
    (∀ (cfg : Config) (w : World) (draws : List ℕ) (p : List ℤ)
        (out : List ℤ × List Cmd),
      process_artists_missing cfg w draws p = some out →
      ∃ new, out.1 = p ++ new) ∧
    (∀ (cfg : Config) (w : World) (draws : List ℕ) (p : List ℤ)
        (out : List ℤ × List Cmd),
      process_albums_missing cfg w draws p = some out →
      ∃ new, out.1 = p ++ new) ∧
    (∀ (cfg : Config) (w : World) (draws : List ℕ) (p : List ℤ)
        (out : List ℤ × List Cmd),
      mod_process_albums_missing cfg w draws p = some out →
      ∃ new, out.1 = p ++ new) := by
  have halbum : ∀ (cfg : Config) (w : World) (draws : List ℕ) (p : List ℤ)
      (out : List ℤ × List Cmd),
      process_albums_missing cfg w draws p = some out →
      ∃ new, out.1 = p ++ new := by
    intro cfg w draws p out h
    rw [process_albums_missing] at h
    split at h
    · cases h; exact ⟨[], by simp⟩
    · split at h
      · cases h; exact ⟨[], by simp⟩
      · simp only [] at h
        split at h
        · cases h; exact ⟨[], by simp⟩
        · split at h
          · cases h; exact ⟨[], by simp⟩
          · split at h
            · exact absurd h (by simp)
            · rename_i st hloop
              cases h
              exact ⟨st.newly_processed, rfl⟩
  refine ⟨?_, halbum, ?_⟩
  · intro cfg w draws p out h
    rw [process_artists_missing] at h
    split at h
    · cases h; exact ⟨[], by simp⟩
    · split at h
      · cases h; exact ⟨[], by simp⟩
      · simp only [] at h
        split at h
        · cases h; exact ⟨[], by simp⟩
        · split at h
          · cases h; exact ⟨[], by simp⟩
          · split at h
            · exact absurd h (by simp)
            · rename_i st hloop
              cases h
              exact ⟨st.newly_processed, rfl⟩
  · intro cfg w draws p out h
    rw [← albums_missing_generations_eq] at h
    exact halbum cfg w draws p out h

theorem missing_pass_appends_witness :
    process_artists_missing ⟨1, 1, false, true⟩ wDemo [] [] =
      some ([7],
        [Cmd.getArtists, Cmd.refreshArtist 7, Cmd.missingAlbumSearch 7]) ∧
    (∃ new, ([7] : List ℤ) = [] ++ new) :=
  ⟨by decide,
    missing_pass_appends.1 ⟨1, 1, false, true⟩ wDemo [] []
      ([7], [Cmd.getArtists, Cmd.refreshArtist 7, Cmd.missingAlbumSearch 7])
      (by decide)⟩
